import Mathlib

/-!
Verification of the `phpserialize` decoder (`consume.go`).

The byte buffer is modelled as a `List Char` (the format is ASCII; Go's
`[]byte` indexing and slicing map to list operations).  Go's multiple
return values `(value, newOffset, error)` are modelled by `GoRes`:
`ok value newOffset` for a `nil` error, `err offset msg` for a non-`nil`
error (keeping the offset that Go returns alongside the error), and
`panic` for a Go runtime panic (out-of-range index or slice, reflect
kind mismatch).  Offsets handed to a consumer are natural numbers
(callers thread offsets starting from 0 and they only move forward);
returned offsets are integers because the error convention returns `-1`.
-/

namespace PhpSerialize

/-- The byte buffer, one `Char` per byte (ASCII model of `[]byte`). -/
abbrev Bytes := List Char

/-- Result of a Go call `(value, newOffset, error)`, plus a `panic`
outcome for Go runtime panics.  `ok v o` is a success with a `nil`
error, `err o msg` is a non-`nil` error together with the offset that
was returned next to it. -/
inductive GoRes (α : Type) where
  | ok : α → Int → GoRes α
  | err : Int → String → GoRes α
  | panic : GoRes α
deriving DecidableEq

/-- Wrapping a typed result into `interface{}` (used by `consumeNext`). -/
def GoRes.map {α β : Type} (f : α → β) : GoRes α → GoRes β
  | .ok a o => .ok (f a) o
  | .err o m => .err o m
  | .panic => .panic

/-- A decoded value (`interface{}` holding one of the decoder's result
types): `nil`, `bool`, `int64`, `float64` or `string`.  Floats are
modelled as the exact rational value of the decimal literal (the
claims only involve literals such as `3.5` that are exact in IEEE
double as well). -/
inductive PValue where
  | null
  | b (v : Bool)
  | i (v : Int)
  | s (v : List Char)
  | f (v : ℚ)
deriving DecidableEq

/-- Modelled from the spec: the byte-scanning primitive
`findByte(data, lookingFor, offset)` "scans forward for the first
occurrence of a target byte at or after `fromOffset`; returns a
sentinel not-found (expressed as an invalid offset, e.g. negative)".
`i` is the absolute index of the head of the remaining list. -/
def findByteAux (t : Char) : List Char → Nat → Int
  | [], _ => -1
  | c :: rest, i => if c = t then (i : Int) else findByteAux t rest (i + 1)

/-- Modelled from the spec: `findByte` scans `data` from `offset` for
the first occurrence of `t`, returning its index, or `-1` if absent. -/
def findByte (data : Bytes) (t : Char) (offset : Nat) : Int :=
  findByteAux t (data.drop offset) offset

/-- Modelled from the spec: tag validation used by every consumer
("Validate that `buffer[offset]` equals the expected tag character …
Fails with `UnexpectedTag` if not").  The check fails (rather than
panicking) when `offset` is at or past the buffer end, matching the
spec's errors-as-values policy; each consumer's own literal layout
handles the byte after the tag. -/
def checkType (data : Bytes) (t : Char) (offset : Nat) : Bool :=
  decide (offset < data.length) && (data.getD offset ' ' == t)

/-- Modelled from the spec: the external "raw-byte-to-text decoding
helper for the payload region"; the core only needs that slicing the
decoded text by byte count matches buffer positions, so it is the
identity byte-to-character decoding here (claims use ASCII payloads). -/
def DecodePHPString (data : Bytes) : Bytes := data

/-- Modelled from the spec: the key-name normalization helper,
"normalize the key (first character capitalized)". -/
def upperCaseFirstLetter : List Char → List Char
  | [] => []
  | c :: rest => c.toUpper :: rest

/-- `strconv.Atoi`: an optional sign followed by at least one decimal
digit, rejecting anything else and values outside the signed 64-bit
range (Go returns a non-`nil` error in those cases, which is all the
callers look at). -/
def digitsVal (l : List Char) : Nat :=
  l.foldl (fun a c => a * 10 + (c.toNat - 48)) 0

def atoiCore : List Char → Option Int
  | [] => none
  | '+' :: rest =>
    if rest ≠ [] ∧ rest.all Char.isDigit then some (digitsVal rest) else none
  | '-' :: rest =>
    if rest ≠ [] ∧ rest.all Char.isDigit then some (-(digitsVal rest : Int)) else none
  | l =>
    if l.all Char.isDigit then some (digitsVal l) else none

def atoi (l : List Char) : Option Int :=
  match atoiCore l with
  | none => none
  | some v => if -(2 ^ 63) ≤ v ∧ v < 2 ^ 63 then some v else none

/-- `strconv.ParseFloat` restricted to plain decimal literals: optional
sign, digits with an optional fraction part (at least one digit in the
mantissa) and an optional decimal exponent.  Special forms (`inf`,
`NaN`, hex mantissas, digit-separating underscores) are outside every
claim's inputs and are treated as parse failures; the value is the
exact rational of the literal. -/
def splitDigits : List Char → List Char × List Char
  | [] => ([], [])
  | c :: rest =>
    if c.isDigit then
      let (d, r) := splitDigits rest
      (c :: d, r)
    else ([], c :: rest)

def parseExp (l : List Char) : Option Int :=
  match l with
  | '+' :: rest => if rest ≠ [] ∧ rest.all Char.isDigit then some (digitsVal rest) else none
  | '-' :: rest => if rest ≠ [] ∧ rest.all Char.isDigit then some (-(digitsVal rest : Int)) else none
  | _ => if l ≠ [] ∧ l.all Char.isDigit then some (digitsVal l) else none

/-- The exact rational value of the decimal literal
`<ip>.<fp>e<ex>`, built with integer arithmetic. -/
def decToRat (ip fp : List Char) (ex : Int) : ℚ :=
  let num : Int := (digitsVal ip * 10 ^ fp.length + digitsVal fp : Nat)
  let den : Nat := 10 ^ fp.length
  if 0 ≤ ex then mkRat (num * 10 ^ ex.toNat) den
  else mkRat num (den * 10 ^ (-ex).toNat)

def parseFloatUnsigned (l : List Char) : Option ℚ :=
  let (ip, rest) := splitDigits l
  match rest with
  | [] => if ip = [] then none else some (decToRat ip [] 0)
  | '.' :: rest2 =>
    let (fp, rest3) := splitDigits rest2
    if ip = [] ∧ fp = [] then none
    else
      match rest3 with
      | [] => some (decToRat ip fp 0)
      | e :: rest4 =>
        if e = 'e' ∨ e = 'E' then (parseExp rest4).map (fun k => decToRat ip fp k)
        else none
  | e :: rest4 =>
    if e = 'e' ∨ e = 'E' then
      if ip = [] then none
      else (parseExp rest4).map (fun k => decToRat ip [] k)
    else none

def parseFloat (l : List Char) : Option ℚ :=
  match l with
  | '+' :: rest => parseFloatUnsigned rest
  | '-' :: rest => (parseFloatUnsigned rest).map (fun q => -q)
  | _ => parseFloatUnsigned l

/-!  The consumers of `src/consume.go`. -/

/-- `consumeStringUntilByte`: all characters after `offset` up to (not
including) the first occurrence of `lookingFor`; `("", -1)` when the
byte is not found. -/
def consumeStringUntilByte (data : Bytes) (lookingFor : Char) (offset : Nat) :
    Bytes × Int :=
  let newOffset := findByte data lookingFor offset
  if newOffset < 0 then ([], -1)
  else ((data.take newOffset.toNat).drop offset, newOffset)

/-- `consumeInt` (`i:<digits>;`).  On the success path the found `;`
index is non-negative, so `.toNat` is exact. -/
def consumeInt (data : Bytes) (offset : Nat) : GoRes Int :=
  if ¬ checkType data 'i' offset then .err (-1) "not an integer"
  else
    match consumeStringUntilByte data ';' (offset + 2) with
    | (alphaNumber, newOffset) =>
      match atoi alphaNumber with
      | none => .err (-1) "invalid syntax"
      | some i => .ok i ((newOffset + 1).toNat)

/-- `consumeFloat` (`d:<decimal>;`). -/
def consumeFloat (data : Bytes) (offset : Nat) : GoRes ℚ :=
  if ¬ checkType data 'd' offset then .err (-1) "not a float"
  else
    match consumeStringUntilByte data ';' (offset + 2) with
    | (alphaNumber, newOffset) =>
      match parseFloat alphaNumber with
      | none => .err (-1) "invalid syntax"
      | some v => .ok v ((newOffset + 1).toNat)

/-- `consumeIntPart`: an integer followed by (and including) a colon. -/
def consumeIntPart (data : Bytes) (offset : Nat) : GoRes Int :=
  match consumeStringUntilByte data ':' offset with
  | (rawValue, newOffset) =>
    match atoi rawValue with
    | none => .err (-1) "invalid syntax"
    | some value => .ok value ((newOffset + 1).toNat)

/-- `consumeStringRealPart`: length prefix, `"`-wrapped payload sliced
out of `DecodePHPString data`, then the offset past the closing `";`.
The slice `s[offset : offset+length]` panics in Go when the declared
length is negative or reaches past the end of the decoded text. -/
def consumeStringRealPart (data : Bytes) (offset : Nat) : GoRes Bytes :=
  match consumeIntPart data offset with
  | .panic => .panic
  | .err _ e => .err (-1) e
  | .ok length newOffset =>
    let offset2 := (newOffset + 1).toNat
    let s := DecodePHPString data
    if 0 ≤ length ∧ (offset2 : Int) + length ≤ s.length then
      .ok ((s.take (offset2 + length.toNat)).drop offset2)
        ((offset2 : Int) + length + 2)
    else .panic

/-- `consumeString` (`s:<len>:"<bytes>";`). -/
def consumeString (data : Bytes) (offset : Nat) : GoRes Bytes :=
  if ¬ checkType data 's' offset then .err (-1) "not a string"
  else consumeStringRealPart data (offset + 2)

/-- `consumeNil` (`N;`). -/
def consumeNil (data : Bytes) (offset : Nat) : GoRes PValue :=
  if ¬ checkType data 'N' offset then .err (-1) "not null"
  else .ok .null (offset + 2)

/-- `consumeBool` (`b:<0|1>;`): reads `data[offset+2]` (a panic when
out of range) and unconditionally advances by 4. -/
def consumeBool (data : Bytes) (offset : Nat) : GoRes Bool :=
  if ¬ checkType data 'b' offset then .err (-1) "not a boolean"
  else
    match data.get? (offset + 2) with
    | none => .panic
    | some c => .ok (c = '1') (offset + 4)

/-!  The destination-record model.

`consumeObject` receives `v interface{}`, a pointer to a caller-owned
struct, and writes decoded values through `reflect`.  A destination is
a `Slot`: either a scalar field slot (with its reflect kind and current
contents) or a struct (a list of named fields).  `dummyObject{}` is the
empty struct `Slot.obj []`. -/

/-- The reflect kinds that `setField` distinguishes.  The signed kinds
`Int`..`Int64` are collapsed into one 64-bit kind (`SetInt` truncates
silently for narrower fields, which no claim observes); same for the
unsigned and float kinds. -/
inductive ScalarKind where
  | intK
  | uintK
  | floatK
  | stringK
  | boolK
  | ifaceK
deriving DecidableEq

/-- A destination: a scalar field slot or a struct of named fields. -/
inductive Slot where
  | prim (kind : ScalarKind) (val : Option PValue)
  | obj (fields : List (String × Slot))

/-- `reflect.Value.FieldByName` on a struct: the first field with the
given name, or the invalid `Value` (`none`) when absent. -/
def lookupField : List (String × Slot) → String → Option Slot
  | [], _ => none
  | (n, s) :: rest, name => if n = name then some s else lookupField rest name

/-- Writing back a field value (Go mutates the field in place). -/
def updateField : List (String × Slot) → String → Slot → List (String × Slot)
  | [], _, _ => []
  | (n, s) :: rest, name, s2 =>
    if n = name then (n, s2) :: rest else (n, s) :: updateField rest name s2

/-- `consumeNext`: the value dispatcher, switching on the tag byte. -/
def consumeNext (data : Bytes) (offset : Nat) : GoRes PValue :=
  if data.length ≤ offset then .err (-1) "corrupt"
  else
    match data.getD offset ' ' with
    | 'b' => (consumeBool data offset).map PValue.b
    | 'd' => (consumeFloat data offset).map PValue.f
    | 'i' => (consumeInt data offset).map PValue.i
    | 's' => (consumeString data offset).map PValue.s
    | 'N' => consumeNil data offset
    | _ => .err (-1) ("can not consume type: " ++ String.mk (data.drop offset))

/-- `setField`, switching on the destination field's kind.  A signed
integer field uses `value.Int()` (a reflect panic unless the decoded
value is the `int64`); an unsigned field uses `value.Uint()`, which
panics for every kind the decoder produces; a float field uses
`value.Float()` (panic unless `float64`); every other kind uses
`field.Set(value)`, which panics unless the decoded value's type is
assignable to the field's type (`reflect.ValueOf(nil)` is the zero
`Value`, so a decoded `nil` makes `Set` panic as well).  `none` is the
panic outcome, `some` the stored value. -/
def setField (kind : ScalarKind) (value : PValue) : Option PValue :=
  match kind with
  | .intK => match value with | .i n => some (.i n) | _ => none
  | .uintK => none
  | .floatK => match value with | .f q => some (.f q) | _ => none
  | .stringK => match value with | .s t => some (.s t) | _ => none
  | .boolK => match value with | .b v => some (.b v) | _ => none
  | .ifaceK => match value with | .null => none | v => some v

/-- `setField` lifted to a field slot: `field.Set` of a decoded scalar
into a struct-typed field is never assignable, hence a panic. -/
def setFieldSlot : Slot → PValue → Option Slot
  | .prim kind _, value => (setField kind value).map (fun v => .prim kind (some v))
  | .obj _, _ => none

/-- The key/value loop of `consumeObject` (`for i := 0; i < length`),
recursing on the number of pairs left.  The recursive `consumeObject`
call is abstracted as `co` (instantiated with the fuel-indexed
`consumeObjectF`).  `reflect.ValueOf(v).Elem().FieldByName` panics when
the destination is not a struct; `data[offset]` panics when out of
range; an unmatched key sends nested-object writes to `&dummyObject{}`
(`Slot.obj []`) and discards scalar values. -/
def consumePairsGo (co : Bytes → Nat → Slot → GoRes Slot) (data : Bytes) :
    Nat → Nat → Slot → GoRes Slot
  | 0, offset, v => .ok v offset
  | count + 1, offset, v =>
    match consumeString data offset with
    | .panic => .panic
    | .err _ e => .err (-1) e
    | .ok key offset1 =>
      match v with
      | .prim _ _ => .panic
      | .obj inst =>
        let fname := String.mk (upperCaseFirstLetter key)
        let field := lookupField inst fname
        match data.get? offset1.toNat with
        | none => .panic
        | some c =>
          if c = 'O' then
            match field with
            | some slot =>
              match co data offset1.toNat slot with
              | .panic => .panic
              | .err _ e => .err (-1) e
              | .ok slot2 offset2 =>
                consumePairsGo co data count offset2.toNat
                  (.obj (updateField inst fname slot2))
            | none =>
              match co data offset1.toNat (.obj []) with
              | .panic => .panic
              | .err _ e => .err (-1) e
              | .ok _ offset2 => consumePairsGo co data count offset2.toNat (.obj inst)
          else
            match consumeNext data offset1.toNat with
            | .panic => .panic
            | .err _ e => .err (-1) e
            | .ok value offset2 =>
              match field with
              | none => consumePairsGo co data count offset2.toNat (.obj inst)
              | some fslot =>
                match setFieldSlot fslot value with
                | none => .panic
                | some fslot2 =>
                  consumePairsGo co data count offset2.toNat
                    (.obj (updateField inst fname fslot2))

/-- `consumeObject` with a fuel bound on the nesting recursion (each
nested `O` strictly advances the offset within the buffer, so
`data.length + 1` fuel always suffices; `consumeObjectF_fuel_stable`
below makes that precise).  Tag check, class-name label, element
count, unconditional skip of `{`, the pair loop, and the offset one
past the (equally unread) closing `}`. -/
def consumeObjectF : Nat → Bytes → Nat → Slot → GoRes Slot
  | 0, _, _, _ => .panic
  | fuel + 1, data, offset, v =>
    if ¬ checkType data 'O' offset then .err (-1) "not an object"
    else
      match consumeStringRealPart data (offset + 2) with
      | .panic => .panic
      | .err _ e => .err (-1) e
      | .ok _ offset1 =>
        match consumeIntPart data offset1.toNat with
        | .panic => .panic
        | .err _ e => .err (-1) e
        | .ok length offset2 =>
          match consumePairsGo (consumeObjectF fuel) data length.toNat
              (offset2.toNat + 1) v with
          | .panic => .panic
          | .err o e => .err o e
          | .ok v2 offset3 => .ok v2 (offset3 + 1)

/-- `consumeObject(data, offset, v)`. -/
def consumeObject (data : Bytes) (offset : Nat) (v : Slot) : GoRes Slot :=
  consumeObjectF (data.length + 1) data offset v

/-- The position where `consumeObject` expects the opening `{`: the
offset reached after the `O` tag, the class-name label and the element
count — the byte that line 133's `offset++` skips without reading. -/
def objectHeaderEnd (data : Bytes) (offset : Nat) : Option Nat :=
  if ¬ checkType data 'O' offset then none
  else
    match consumeStringRealPart data (offset + 2) with
    | .ok _ offset1 =>
      match consumeIntPart data offset1.toNat with
      | .ok _ offset2 => some offset2.toNat
      | _ => none
    | _ => none

/-!  Concrete wire payloads and destination records used by the
claims (`\x7b` and `\x7d` are `{` and `}`). -/

def personWire : Bytes :=
  "O:6:\"Person\":2:\x7bs:4:\"Name\";s:3:\"Bob\";s:3:\"Age\";i:30;\x7d".toList

def personRecord : Slot :=
  .obj [("Name", .prim .stringK none), ("Age", .prim .intK none)]

/-- A truncated boolean literal: the tag and payload are present but
the terminating `;` is missing. -/
def boolTrunc : Bytes := "b:1".toList

/-- A truncated string literal: tag, count and opening quote present,
but only 3 of the declared 5 payload bytes. -/
def strTrunc : Bytes := "s:5:\"abc".toList

/-- An object whose only pair writes the text `"y"` into the
integer-typed field `X`. -/
def mismatchWire : Bytes := "O:1:\"A\":1:\x7bs:1:\"X\";s:1:\"y\";\x7d".toList

def mismatchRecord : Slot := .obj [("X", .prim .intK none)]

/-- A top-level array payload (unsupported tag `a`). -/
def arrayWire : Bytes := "a:1:\x7b\x7d".toList

/-- A length-prefixed payload whose declared length 5 exceeds the 3
bytes that remain after the opening quote. -/
def overLenWire : Bytes := "5:\"abc".toList

/-- A length-prefixed payload with a negative declared length. -/
def negLenWire : Bytes := "-1:\"a\";".toList

/-!  Basic facts about the byte scanner. -/

lemma findByteAux_spec (t : Char) :
    ∀ (l : List Char) (i : Nat),
      findByteAux t l i = -1 ∨
      ∃ m : Nat, findByteAux t l i = ((i + m : Nat) : Int) ∧ m < l.length ∧
        l[m]? = some t ∧ ∀ k, k < m → l[k]? ≠ some t := by
  intro l
  induction l with
  | nil => intro i; exact Or.inl rfl
  | cons c rest ih =>
    intro i
    by_cases hc : c = t
    · refine Or.inr ⟨0, ?_, by simp, by simp [hc], by omega⟩
      simp [findByteAux, hc]
    · rcases ih (i + 1) with h | ⟨m, hm, hlt, hch, hmin⟩
      · left
        simpa [findByteAux, hc] using h
      · refine Or.inr ⟨m + 1, ?_, by simpa using hlt, by simpa using hch, ?_⟩
        · rw [show i + (m + 1) = (i + 1) + m by omega]
          simpa [findByteAux, hc] using hm
        · intro k hk
          match k with
          | 0 => simpa using hc
          | k' + 1 => simpa using hmin k' (by omega)

lemma findByteAux_intro (t : Char) :
    ∀ (l : List Char) (i m : Nat), m < l.length → l[m]? = some t →
      (∀ k, k < m → l[k]? ≠ some t) → findByteAux t l i = ((i + m : Nat) : Int) := by
  intro l
  induction l with
  | nil => intro i m hm; simp at hm
  | cons c rest ih =>
    intro i m hm hch hmin
    match m with
    | 0 =>
      simp only [List.getElem?_cons_zero, Option.some.injEq] at hch
      simp [findByteAux, hch]
    | m' + 1 =>
      have hc : ¬ c = t := by
        have := hmin 0 (by omega)
        simpa using this
      have := ih (i + 1) m' (by simpa using hm) (by simpa using hch)
        (fun k hk => by simpa using hmin (k + 1) (by omega))
      rw [show i + (m' + 1) = (i + 1) + m' by omega]
      simpa [findByteAux, hc] using this

lemma findByte_eq_coe {data : Bytes} {t : Char} {off j : Nat}
    (h : findByte data t off = (j : Int)) :
    off ≤ j ∧ j < data.length ∧ data[j]? = some t ∧
      ∀ k, off ≤ k → k < j → data[k]? ≠ some t := by
  rcases findByteAux_spec t (data.drop off) off with hneg | ⟨m, hm, hlt, hch, hmin⟩
  · rw [findByte, hneg] at h; omega
  · rw [findByte, hm] at h
    have hj : j = off + m := by exact_mod_cast h.symm
    subst hj
    rw [List.length_drop] at hlt
    refine ⟨by omega, by omega, ?_, ?_⟩
    · rw [List.getElem?_drop] at hch; exact hch
    · intro k hk1 hk2
      have := hmin (k - off) (by omega)
      rw [List.getElem?_drop, show off + (k - off) = k by omega] at this
      exact this

lemma findByte_intro {data : Bytes} {t : Char} {off j : Nat}
    (h1 : off ≤ j) (h2 : j < data.length) (h3 : data[j]? = some t)
    (h4 : ∀ k, off ≤ k → k < j → data[k]? ≠ some t) :
    findByte data t off = (j : Int) := by
  have := findByteAux_intro t (data.drop off) off (j - off)
    (by rw [List.length_drop]; omega)
    (by rw [List.getElem?_drop, show off + (j - off) = j by omega]; exact h3)
    (fun k hk => by
      rw [List.getElem?_drop]
      exact h4 (off + k) (by omega) (by omega))
  rw [findByte, this]
  congr 1
  omega

lemma findByte_neg_or (data : Bytes) (t : Char) (off : Nat) :
    findByte data t off = -1 ∨
    ∃ j : Nat, findByte data t off = (j : Int) ∧ off ≤ j ∧ j < data.length := by
  rcases findByteAux_spec t (data.drop off) off with hneg | ⟨m, hm, hlt, _, _⟩
  · left; rw [findByte, hneg]
  · right
    refine ⟨off + m, by rw [findByte, hm], by omega, ?_⟩
    rw [List.length_drop] at hlt
    omega

lemma findByte_congr {d₁ d₂ : Bytes} {t : Char} {off j : Nat}
    (h : findByte d₁ t off = (j : Int)) (hlen : d₁.length = d₂.length)
    (hag : ∀ i, off ≤ i → i ≤ j → d₁[i]? = d₂[i]?) :
    findByte d₂ t off = (j : Int) := by
  obtain ⟨h1, h2, h3, h4⟩ := findByte_eq_coe h
  exact findByte_intro h1 (hlen ▸ h2) ((hag j h1 le_rfl) ▸ h3)
    (fun k hk1 hk2 => (hag k hk1 (by omega)) ▸ h4 k hk1 hk2)

lemma checkType_iff {data : Bytes} {t : Char} {off : Nat} :
    checkType data t off = true ↔ off < data.length ∧ data[off]? = some t := by
  rw [checkType]
  rcases Nat.lt_or_ge off data.length with h | h
  · rw [List.getD_eq_getElem?_getD, List.getElem?_eq_getElem h]
    simp [h]
  · rw [List.getElem?_eq_none h]
    simp [h]

lemma slice_congr {d₁ d₂ : Bytes} {a b : Nat}
    (hag : ∀ i, a ≤ i → i < b → d₁[i]? = d₂[i]?) :
    (d₁.take b).drop a = (d₂.take b).drop a := by
  apply List.ext_getElem?
  intro n
  rw [List.getElem?_drop, List.getElem?_drop, List.getElem?_take, List.getElem?_take]
  by_cases h : a + n < b
  · simpa [h] using hag (a + n) (by omega) h
  · simp [h]

/-!  Inversion lemmas: what a successful consumer run tells us. -/

lemma consumeIntPart_ok {data : Bytes} {off : Nat} {v o : Int}
    (h : consumeIntPart data off = .ok v o) :
    ∃ j : Nat, findByte data ':' off = (j : Int) ∧ off ≤ j ∧ j < data.length ∧
      o = (j : Int) + 1 ∧ atoi ((data.take j).drop off) = some v := by
  rcases findByte_neg_or data ':' off with hneg | ⟨j, hj, hj1, hj2⟩
  · rw [consumeIntPart, consumeStringUntilByte, hneg] at h
    simp [atoi, atoiCore] at h
  · rw [consumeIntPart, consumeStringUntilByte, hj] at h
    simp only [show ¬ ((j : Int) < 0) by omega, if_false, Int.toNat_natCast] at h
    cases hat : atoi ((data.take j).drop off) with
    | none => rw [hat] at h; simp at h
    | some w =>
      rw [hat] at h
      simp only [GoRes.ok.injEq] at h
      refine ⟨j, hj, hj1, hj2, ?_, h.1 ▸ hat⟩
      rw [← h.2]
      omega

lemma consumeStringRealPart_ok {data : Bytes} {off : Nat} {s : Bytes} {o : Int}
    (h : consumeStringRealPart data off = .ok s o) :
    ∃ (j : Nat) (len : Int), findByte data ':' off = (j : Int) ∧ off ≤ j ∧
      j < data.length ∧ atoi ((data.take j).drop off) = some len ∧ 0 ≤ len ∧
      (j : Int) + 2 + len ≤ data.length ∧
      s = (data.take (j + 2 + len.toNat)).drop (j + 2) ∧
      o = (j : Int) + 2 + len + 2 := by
  rw [consumeStringRealPart] at h
  cases hip : consumeIntPart data off with
  | panic => rw [hip] at h; simp at h
  | err o2 e => rw [hip] at h; simp at h
  | ok len o2 =>
    rw [hip] at h
    obtain ⟨j, hj, hj1, hj2, ho2, hat⟩ := consumeIntPart_ok hip
    simp only at h
    have htn : (o2 + 1).toNat = j + 2 := by omega
    rw [htn] at h
    split at h
    · rename_i hcond
      simp only [GoRes.ok.injEq] at h
      refine ⟨j, len, hj, hj1, hj2, hat, hcond.1, ?_, h.1.symm, ?_⟩
      · have := hcond.2
        rw [DecodePHPString] at this
        push_cast at this ⊢
        omega
      · rw [← h.2]
        push_cast
        ring
    · simp at h

lemma consumeString_ok {data : Bytes} {off : Nat} {s : Bytes} {o : Int}
    (h : consumeString data off = .ok s o) :
    off < data.length ∧ data[off]? = some 's' ∧
      consumeStringRealPart data (off + 2) = .ok s o ∧
      (off : Int) + 6 ≤ o ∧ o ≤ (data.length : Int) + 2 := by
  rw [consumeString] at h
  split at h
  · simp at h
  · rename_i hct
    rw [Decidable.not_not] at hct
    obtain ⟨hlt, hch⟩ := checkType_iff.mp hct
    obtain ⟨j, len, _, hj1, hj2, _, hlen0, hbound, _, ho⟩ := consumeStringRealPart_ok h
    exact ⟨hlt, hch, h, by omega, by omega⟩

lemma consumeInt_ok {data : Bytes} {off : Nat} {v o : Int}
    (h : consumeInt data off = .ok v o) :
    off < data.length ∧ data[off]? = some 'i' ∧
      ∃ j : Nat, findByte data ';' (off + 2) = (j : Int) ∧ off + 2 ≤ j ∧
        j < data.length ∧ o = (j : Int) + 1 ∧
        atoi ((data.take j).drop (off + 2)) = some v := by
  rw [consumeInt] at h
  split at h
  · simp at h
  · rename_i hct
    rw [Decidable.not_not] at hct
    obtain ⟨hlt, hch⟩ := checkType_iff.mp hct
    refine ⟨hlt, hch, ?_⟩
    rcases findByte_neg_or data ';' (off + 2) with hneg | ⟨j, hj, hj1, hj2⟩
    · rw [consumeStringUntilByte, hneg] at h
      simp [atoi, atoiCore] at h
    · rw [consumeStringUntilByte, hj] at h
      simp only [show ¬ ((j : Int) < 0) by omega, if_false, Int.toNat_natCast] at h
      cases hat : atoi ((data.take j).drop (off + 2)) with
      | none => rw [hat] at h; simp at h
      | some w =>
        rw [hat] at h
        simp only [GoRes.ok.injEq] at h
        exact ⟨j, hj, hj1, hj2, by omega, h.1 ▸ hat⟩

lemma consumeFloat_ok {data : Bytes} {off : Nat} {v : ℚ} {o : Int}
    (h : consumeFloat data off = .ok v o) :
    off < data.length ∧ data[off]? = some 'd' ∧
      ∃ j : Nat, findByte data ';' (off + 2) = (j : Int) ∧ off + 2 ≤ j ∧
        j < data.length ∧ o = (j : Int) + 1 ∧
        parseFloat ((data.take j).drop (off + 2)) = some v := by
  rw [consumeFloat] at h
  split at h
  · simp at h
  · rename_i hct
    rw [Decidable.not_not] at hct
    obtain ⟨hlt, hch⟩ := checkType_iff.mp hct
    refine ⟨hlt, hch, ?_⟩
    rcases findByte_neg_or data ';' (off + 2) with hneg | ⟨j, hj, hj1, hj2⟩
    · rw [consumeStringUntilByte, hneg] at h
      simp [parseFloat, parseFloatUnsigned, splitDigits] at h
    · rw [consumeStringUntilByte, hj] at h
      simp only [show ¬ ((j : Int) < 0) by omega, if_false, Int.toNat_natCast] at h
      cases hat : parseFloat ((data.take j).drop (off + 2)) with
      | none => rw [hat] at h; simp at h
      | some w =>
        rw [hat] at h
        simp only [GoRes.ok.injEq] at h
        exact ⟨j, hj, hj1, hj2, by omega, h.1 ▸ hat⟩

lemma consumeNil_ok {data : Bytes} {off : Nat} {v : PValue} {o : Int}
    (h : consumeNil data off = .ok v o) :
    off < data.length ∧ data[off]? = some 'N' ∧ v = .null ∧ o = (off : Int) + 2 := by
  rw [consumeNil] at h
  split at h
  · simp at h
  · rename_i hct
    rw [Decidable.not_not] at hct
    obtain ⟨hlt, hch⟩ := checkType_iff.mp hct
    simp only [GoRes.ok.injEq] at h
    exact ⟨hlt, hch, h.1.symm, by omega⟩

lemma consumeBool_ok {data : Bytes} {off : Nat} {v : Bool} {o : Int}
    (h : consumeBool data off = .ok v o) :
    off < data.length ∧ data[off]? = some 'b' ∧ off + 2 < data.length ∧
      data[off + 2]? = some (data.getD (off + 2) ' ') ∧
      v = decide (data.getD (off + 2) ' ' = '1') ∧ o = (off : Int) + 4 := by
  rw [consumeBool] at h
  split at h
  · simp at h
  · rename_i hct
    rw [Decidable.not_not] at hct
    obtain ⟨hlt, hch⟩ := checkType_iff.mp hct
    cases hg : data.get? (off + 2) with
    | none => rw [hg] at h; simp at h
    | some c =>
      rw [hg] at h
      simp only [GoRes.ok.injEq] at h
      rw [List.get?_eq_getElem?] at hg
      have hlt2 : off + 2 < data.length := by
        by_contra hc
        rw [List.getElem?_eq_none (by omega)] at hg
        exact absurd hg (by simp)
      have hgd : data.getD (off + 2) ' ' = c := by
        rw [List.getD_eq_getElem?_getD, hg]
        rfl
      exact ⟨hlt, hch, hlt2, by rw [hg, hgd], by rw [← h.1, hgd], by omega⟩

lemma GoRes.map_eq_ok {α β : Type} {f : α → β} {r : GoRes α} {v : β} {o : Int} :
    r.map f = .ok v o ↔ ∃ a, r = .ok a o ∧ v = f a := by
  cases r with
  | ok a o2 =>
    simp only [GoRes.map, GoRes.ok.injEq]
    constructor
    · rintro ⟨h1, h2⟩
      exact ⟨a, ⟨rfl, h2⟩, h1.symm⟩
    · rintro ⟨a2, ⟨ha, ho⟩, hv⟩
      subst ha
      exact ⟨hv.symm, ho⟩
  | err o2 m => simp [GoRes.map]
  | panic => simp [GoRes.map]

lemma GoRes.map_eq_err {α β : Type} {f : α → β} {r : GoRes α} {o : Int} {m : String} :
    r.map f = .err o m ↔ r = .err o m := by
  cases r <;> simp [GoRes.map]

/-- Dispatch equations of `consumeNext` (used by C5). -/
lemma consumeNext_corrupt {data : Bytes} {off : Nat} (h : data.length ≤ off) :
    consumeNext data off = .err (-1) "corrupt" := by
  rw [consumeNext, if_pos h]

lemma consumeNext_ok {data : Bytes} {off : Nat} {v : PValue} {o : Int}
    (h : consumeNext data off = .ok v o) :
    off < data.length ∧ (off : Int) < o ∧ o ≤ (data.length : Int) + 2 := by
  rw [consumeNext] at h
  split at h
  · simp at h
  · rename_i hlen
    have hlt : off < data.length := by omega
    refine ⟨hlt, ?_⟩
    split at h
    · obtain ⟨a, ha, _⟩ := GoRes.map_eq_ok.mp h
      obtain ⟨_, _, h2, _, _, ho⟩ := consumeBool_ok ha
      omega
    · obtain ⟨a, ha, _⟩ := GoRes.map_eq_ok.mp h
      obtain ⟨_, _, j, _, _, hj2, ho, _⟩ := consumeFloat_ok ha
      omega
    · obtain ⟨a, ha, _⟩ := GoRes.map_eq_ok.mp h
      obtain ⟨_, _, j, _, _, hj2, ho, _⟩ := consumeInt_ok ha
      omega
    · obtain ⟨a, ha, _⟩ := GoRes.map_eq_ok.mp h
      obtain ⟨_, _, _, ho, hb⟩ := consumeString_ok ha
      omega
    · obtain ⟨_, _, _, ho⟩ := consumeNil_ok h
      omega
    · simp at h

/-!  Error results always carry the sentinel offset `-1` (C7). -/

lemma consumeIntPart_err {data : Bytes} {off : Nat} {o : Int} {m : String}
    (h : consumeIntPart data off = .err o m) : o = -1 := by
  rw [consumeIntPart, consumeStringUntilByte] at h
  split at h <;> split at h <;> simp_all

lemma consumeInt_err {data : Bytes} {off : Nat} {o : Int} {m : String}
    (h : consumeInt data off = .err o m) : o = -1 := by
  rw [consumeInt] at h
  split at h
  · simp_all
  · rw [consumeStringUntilByte] at h
    split at h <;> split at h <;> simp_all

lemma consumeFloat_err {data : Bytes} {off : Nat} {o : Int} {m : String}
    (h : consumeFloat data off = .err o m) : o = -1 := by
  rw [consumeFloat] at h
  split at h
  · simp_all
  · rw [consumeStringUntilByte] at h
    split at h <;> split at h <;> simp_all

lemma consumeStringRealPart_err {data : Bytes} {off : Nat} {o : Int} {m : String}
    (h : consumeStringRealPart data off = .err o m) : o = -1 := by
  rw [consumeStringRealPart] at h
  split at h
  · simp at h
  · simp only [GoRes.err.injEq] at h
    exact h.1.symm
  · simp only at h
    split at h
    · simp at h
    · simp at h

lemma consumeString_err {data : Bytes} {off : Nat} {o : Int} {m : String}
    (h : consumeString data off = .err o m) : o = -1 := by
  rw [consumeString] at h
  split at h
  · simp_all
  · exact consumeStringRealPart_err h

lemma consumeNil_err {data : Bytes} {off : Nat} {o : Int} {m : String}
    (h : consumeNil data off = .err o m) : o = -1 := by
  rw [consumeNil] at h
  split at h <;> simp_all

lemma consumeBool_err {data : Bytes} {off : Nat} {o : Int} {m : String}
    (h : consumeBool data off = .err o m) : o = -1 := by
  rw [consumeBool] at h
  split at h
  · simp only [GoRes.err.injEq] at h
    exact h.1.symm
  · split at h
    · simp at h
    · simp at h

lemma consumeNext_err {data : Bytes} {off : Nat} {o : Int} {m : String}
    (h : consumeNext data off = .err o m) : o = -1 := by
  rw [consumeNext] at h
  split at h
  · simp_all
  · split at h
    · exact consumeBool_err (GoRes.map_eq_err.mp h)
    · exact consumeFloat_err (GoRes.map_eq_err.mp h)
    · exact consumeInt_err (GoRes.map_eq_err.mp h)
    · exact consumeString_err (GoRes.map_eq_err.mp h)
    · exact consumeNil_err h
    · simp_all

lemma consumePairsGo_err {co : Bytes → Nat → Slot → GoRes Slot} {data : Bytes} :
    ∀ {count offset : Nat} {v : Slot} {o : Int} {m : String},
      consumePairsGo co data count offset v = .err o m → o = -1 := by
  intro count
  induction count with
  | zero => intro offset v o m h; rw [consumePairsGo] at h; simp at h
  | succ n ih =>
    intro offset v o m h
    simp only [consumePairsGo] at h
    split at h
    · simp at h
    · simp only [GoRes.err.injEq] at h
      exact h.1.symm
    · split at h
      · simp at h
      · split at h
        · simp at h
        · split at h
          · split at h
            · split at h
              · simp at h
              · simp only [GoRes.err.injEq] at h
                exact h.1.symm
              · exact ih h
            · split at h
              · simp at h
              · simp only [GoRes.err.injEq] at h
                exact h.1.symm
              · exact ih h
          · split at h
            · simp at h
            · simp only [GoRes.err.injEq] at h
              exact h.1.symm
            · split at h
              · exact ih h
              · split at h
                · simp at h
                · exact ih h

lemma consumeObjectF_err {data : Bytes} :
    ∀ {fuel : Nat} {offset : Nat} {v : Slot} {o : Int} {m : String},
      consumeObjectF fuel data offset v = .err o m → o = -1 := by
  intro fuel
  cases fuel with
  | zero => intro offset v o m h; rw [consumeObjectF] at h; simp at h
  | succ f =>
    intro offset v o m h
    rw [consumeObjectF] at h
    split at h
    · simp_all
    · split at h
      · simp at h
      · simp_all
      · split at h
        · simp at h
        · simp_all
        · split at h
          · simp at h
          · rename_i herr
            simp only [GoRes.err.injEq] at h
            exact h.1 ▸ consumePairsGo_err herr
          · simp at h

lemma consumeObject_err {data : Bytes} {offset : Nat} {v : Slot} {o : Int} {m : String}
    (h : consumeObject data offset v = .err o m) : o = -1 :=
  consumeObjectF_err h

/-!  Offsets only move forward (C8). -/

lemma consumePairsGo_ok_le {co : Bytes → Nat → Slot → GoRes Slot} {data : Bytes}
    (hco : ∀ (off : Nat) (v s : Slot) (o : Int), co data off v = .ok s o → (off : Int) < o) :
    ∀ {count offset : Nat} {v s : Slot} {o : Int},
      consumePairsGo co data count offset v = .ok s o → (offset : Int) ≤ o := by
  intro count
  induction count with
  | zero =>
    intro offset v s o h
    rw [consumePairsGo] at h
    simp only [GoRes.ok.injEq] at h
    omega
  | succ n ih =>
    intro offset v s o h
    simp only [consumePairsGo] at h
    split at h
    · simp at h
    · simp at h
    · rename_i key offset1 hks
      have hs := consumeString_ok hks
      split at h
      · simp at h
      · split at h
        · simp at h
        · split at h
          · split at h
            · split at h
              · simp at h
              · simp at h
              · rename_i hco1
                have h2 := hco _ _ _ _ hco1
                have h3 := ih h
                omega
            · split at h
              · simp at h
              · simp at h
              · rename_i hco1
                have h2 := hco _ _ _ _ hco1
                have h3 := ih h
                omega
          · split at h
            · simp at h
            · simp at h
            · rename_i hnx
              obtain ⟨_, hn1, hn2⟩ := consumeNext_ok hnx
              split at h
              · have h3 := ih h
                omega
              · split at h
                · simp at h
                · have h3 := ih h
                  omega

lemma consumeObjectF_ok_lt {data : Bytes} :
    ∀ {fuel offset : Nat} {v s : Slot} {o : Int},
      consumeObjectF fuel data offset v = .ok s o → (offset : Int) < o := by
  intro fuel
  induction fuel with
  | zero =>
    intro offset v s o h
    rw [consumeObjectF] at h
    simp at h
  | succ f ih =>
    intro offset v s o h
    rw [consumeObjectF] at h
    split at h
    · simp at h
    · split at h
      · simp at h
      · simp at h
      · rename_i hrp
        obtain ⟨j1, len1, _, hj1, _, _, _, _, _, ho1⟩ := consumeStringRealPart_ok hrp
        split at h
        · simp at h
        · simp at h
        · rename_i hipx
          obtain ⟨j2, _, hj2a, _, ho2, _⟩ := consumeIntPart_ok hipx
          split at h
          · simp at h
          · simp at h
          · rename_i hpx
            have hp := consumePairsGo_ok_le
              (fun off v2 s2 o2 hh => ih hh) hpx
            simp only [GoRes.ok.injEq] at h
            omega

lemma consumeObject_ok_lt {data : Bytes} {offset : Nat} {v s : Slot} {o : Int}
    (h : consumeObject data offset v = .ok s o) : (offset : Int) < o :=
  consumeObjectF_ok_lt h

/-!  Unmatched keys are discarded: a run that succeeds into some
destination also succeeds, with the same final offset, into the
zero-field destination (where no key ever matches), which is left
untouched (C2). -/

lemma consumePairsGo_discard {co : Bytes → Nat → Slot → GoRes Slot} {data : Bytes}
    (hco : ∀ (off : Nat) (v s : Slot) (o : Int), co data off v = .ok s o →
      co data off (.obj []) = .ok (.obj []) o) :
    ∀ {count offset : Nat} {v s : Slot} {o : Int},
      consumePairsGo co data count offset v = .ok s o →
      consumePairsGo co data count offset (.obj []) = .ok (.obj []) o := by
  intro count
  induction count with
  | zero =>
    intro offset v s o h
    rw [consumePairsGo] at h
    simp only [GoRes.ok.injEq] at h
    rw [consumePairsGo, h.2]
  | succ n ih =>
    intro offset v s o h
    simp only [consumePairsGo] at h ⊢
    split at h
    · simp at h
    · simp at h
    · rename_i key offset1 hks
      split at h
      · simp at h
      · rename_i inst
        split at h
        · simp at h
        · rename_i c hgc
          split at h
          · rename_i hO
            rw [if_pos hO]
            simp only [lookupField]
            split at h
            · split at h
              · simp at h
              · simp at h
              · rename_i hco1
                rw [hco _ _ _ _ hco1]
                exact ih h
            · split at h
              · simp at h
              · simp at h
              · rename_i hco1
                first
                | (rw [hco _ _ _ _ hco1]; exact ih h)
                | exact ih h
          · rename_i hO
            rw [if_neg hO]
            simp only [lookupField]
            split at h
            · simp at h
            · simp at h
            · split at h
              · exact ih h
              · split at h
                · simp at h
                · exact ih h

lemma consumeObjectF_discard {data : Bytes} :
    ∀ {fuel offset : Nat} {v s : Slot} {o : Int},
      consumeObjectF fuel data offset v = .ok s o →
      consumeObjectF fuel data offset (.obj []) = .ok (.obj []) o := by
  intro fuel
  induction fuel with
  | zero =>
    intro offset v s o h
    rw [consumeObjectF] at h
    simp at h
  | succ f ih =>
    intro offset v s o h
    rw [consumeObjectF] at h ⊢
    split at h
    · simp at h
    · rename_i hct
      rw [if_neg hct]
      split at h
      · simp at h
      · simp at h
      · split at h
        · simp at h
        · simp at h
        · split at h
          · simp at h
          · simp at h
          · rename_i hpx
            have hd := consumePairsGo_discard (fun off v2 s2 o2 hh => ih hh) hpx
            rw [hd]
            dsimp only
            simp only [GoRes.ok.injEq] at h
            rw [h.2]

/-!  Truncation behaviour (C3): the scanning consumers fail when the
terminator is absent, and their successes stay inside the buffer. -/

lemma consumeInt_noTerminator {data : Bytes} {offset : Nat}
    (h : findByte data ';' (offset + 2) = -1) :
    ∃ m, consumeInt data offset = .err (-1) m := by
  rw [consumeInt]
  split
  · exact ⟨_, rfl⟩
  · rw [consumeStringUntilByte, h]
    exact ⟨_, rfl⟩

lemma consumeFloat_noTerminator {data : Bytes} {offset : Nat}
    (h : findByte data ';' (offset + 2) = -1) :
    ∃ m, consumeFloat data offset = .err (-1) m := by
  rw [consumeFloat]
  split
  · exact ⟨_, rfl⟩
  · rw [consumeStringUntilByte, h]
    exact ⟨_, rfl⟩

/-!  The fuel bound `data.length + 1` used by `consumeObject` is not
observable: every nested `O` starts strictly deeper in the buffer, so
any two sufficient fuels give the same result. -/

lemma consumePairsGo_co_congr {co₁ co₂ : Bytes → Nat → Slot → GoRes Slot} {data : Bytes}
    (hmono : ∀ off v s o, co₁ data off v = .ok s o → (off : Int) < o) :
    ∀ {count offset : Nat} {v : Slot},
      (∀ off v2, offset ≤ off → off < data.length → co₁ data off v2 = co₂ data off v2) →
      consumePairsGo co₁ data count offset v = consumePairsGo co₂ data count offset v := by
  intro count
  induction count with
  | zero => intro offset v _; rw [consumePairsGo, consumePairsGo]
  | succ n ih =>
    intro offset v hco
    rw [consumePairsGo]
    rw [consumePairsGo]
    cases hks : consumeString data offset with
    | panic => rfl
    | err o m => rfl
    | ok key offset1 =>
      obtain ⟨_, _, _, hk1, _⟩ := consumeString_ok hks
      cases v with
      | prim k val => rfl
      | obj inst =>
        dsimp only
        cases hgc : data.get? offset1.toNat with
        | none => rfl
        | some c =>
          dsimp only
          have hlt1 : offset1.toNat < data.length := by
            by_contra hc
            rw [List.get?_eq_getElem?, List.getElem?_eq_none (by omega)] at hgc
            exact absurd hgc (by simp)
          by_cases hO : c = 'O'
          · rw [if_pos hO, if_pos hO]
            cases hf : lookupField inst (String.mk (upperCaseFirstLetter key)) with
            | some slot =>
              dsimp only
              have hce : co₁ data offset1.toNat slot = co₂ data offset1.toNat slot :=
                hco _ _ (by omega) hlt1
              rw [← hce]
              cases hc1 : co₁ data offset1.toNat slot with
              | panic => rfl
              | err o m => rfl
              | ok slot2 offset2 =>
                dsimp only
                have h2 := hmono _ _ _ _ hc1
                exact ih (fun off v2 hge hlt => hco off v2 (by omega) hlt)
            | none =>
              dsimp only
              have hce : co₁ data offset1.toNat (.obj []) = co₂ data offset1.toNat (.obj []) :=
                hco _ _ (by omega) hlt1
              rw [← hce]
              cases hc1 : co₁ data offset1.toNat (.obj []) with
              | panic => rfl
              | err o m => rfl
              | ok slot2 offset2 =>
                dsimp only
                have h2 := hmono _ _ _ _ hc1
                exact ih (fun off v2 hge hlt => hco off v2 (by omega) hlt)
          · rw [if_neg hO, if_neg hO]
            cases hnx : consumeNext data offset1.toNat with
            | panic => rfl
            | err o m => rfl
            | ok value offset2 =>
              dsimp only
              obtain ⟨_, h2, _⟩ := consumeNext_ok hnx
              cases hf : lookupField inst (String.mk (upperCaseFirstLetter key)) with
              | none =>
                dsimp only
                exact ih (fun off v2 hge hlt => hco off v2 (by omega) hlt)
              | some fslot =>
                dsimp only
                cases hsf : setFieldSlot fslot value with
                | none => rfl
                | some fslot2 =>
                  dsimp only
                  exact ih (fun off v2 hge hlt => hco off v2 (by omega) hlt)

lemma consumeObjectF_fuel_congr {data : Bytes} :
    ∀ {f₁ f₂ offset : Nat} {v : Slot}, data.length < f₁ + offset → 0 < f₁ →
      data.length < f₂ + offset → 0 < f₂ →
      consumeObjectF f₁ data offset v = consumeObjectF f₂ data offset v := by
  intro f₁
  induction f₁ with
  | zero => intro f₂ offset v _ h2 _ _; omega
  | succ g ih =>
    intro f₂ offset v h1 _ h3 h4
    cases f₂ with
    | zero => omega
    | succ hh =>
      rw [consumeObjectF]
      rw [consumeObjectF]
      split
      · rfl
      · rename_i hct
        rw [Decidable.not_not] at hct
        obtain ⟨hoff, _⟩ := checkType_iff.mp hct
        cases hrp : consumeStringRealPart data (offset + 2) with
        | panic => rfl
        | err o m => rfl
        | ok key offset1 =>
          dsimp only
          obtain ⟨j1, len1, _, hja, hjb, _, hl0, _, _, ho1⟩ := consumeStringRealPart_ok hrp
          cases hip : consumeIntPart data offset1.toNat with
          | panic => rfl
          | err o m => rfl
          | ok length newOffset =>
            dsimp only
            obtain ⟨j2, _, hj2a, hj2b, ho2, _⟩ := consumeIntPart_ok hip
            have hmono2 : ∀ (off : Nat) (v2 s2 : Slot) (o2 : Int),
                consumeObjectF g data off v2 = .ok s2 o2 → (off : Int) < o2 :=
              fun off v2 s2 o2 hhx => consumeObjectF_ok_lt hhx
            have hco2 : ∀ (off : Nat) (v2 : Slot), newOffset.toNat + 1 ≤ off →
                off < data.length →
                consumeObjectF g data off v2 = consumeObjectF hh data off v2 :=
              fun off v2 hge hlt => ih (by omega) (by omega) (by omega) (by omega)
            rw [consumePairsGo_co_congr hmono2 hco2]

/-- Any fuel at least `data.length + 1` computes the same result, so
the fuel cap of `consumeObject` never cuts a run short. -/
lemma consumeObject_fuel_irrelevant (data : Bytes) (offset : Nat) (v : Slot)
    (extra : Nat) :
    consumeObjectF (data.length + 1 + extra) data offset v =
      consumeObject data offset v := by
  rw [consumeObject]
  exact consumeObjectF_fuel_congr (by omega) (by omega) (by omega) (by omega)

/-!  Congruence: a successful run only depends on the bytes it reads
(C10).  Each lemma says that a buffer agreeing with the original on the
consumer's read positions produces the same successful result. -/

lemma checkType_congr {d₁ d₂ : Bytes} {t : Char} {off : Nat}
    (hlen : d₁.length = d₂.length) (hag : d₁[off]? = d₂[off]?) :
    checkType d₂ t off = checkType d₁ t off := by
  rw [checkType, checkType, hlen, List.getD_eq_getElem?_getD,
    List.getD_eq_getElem?_getD, hag]

lemma consumeIntPart_congr {d₁ d₂ : Bytes} {off : Nat} {v o : Int}
    (h : consumeIntPart d₁ off = .ok v o) (hlen : d₁.length = d₂.length)
    (hag : ∀ i : Nat, off ≤ i → (i : Int) < o → d₁[i]? = d₂[i]?) :
    consumeIntPart d₂ off = .ok v o := by
  obtain ⟨j, hj, hj1, hj2, ho, hat⟩ := consumeIntPart_ok h
  have hfb2 : findByte d₂ ':' off = (j : Int) :=
    findByte_congr hj hlen (fun i hi1 hi2 => hag i hi1 (by omega))
  have hsl : (d₂.take j).drop off = (d₁.take j).drop off :=
    (slice_congr (fun i hi1 hi2 => hag i hi1 (by omega))).symm
  rw [consumeIntPart, consumeStringUntilByte, hfb2]
  simp only [show ¬ ((j : Int) < 0) by omega, if_false, Int.toNat_natCast, hsl, hat]
  rw [ho]
  congr 1

lemma consumeStringRealPart_congr {d₁ d₂ : Bytes} {off : Nat} {s : Bytes} {o : Int}
    (h : consumeStringRealPart d₁ off = .ok s o) (hlen : d₁.length = d₂.length)
    (hag : ∀ i : Nat, off ≤ i → (i : Int) < o - 2 → d₁[i]? = d₂[i]?) :
    consumeStringRealPart d₂ off = .ok s o := by
  obtain ⟨j, len, hj, hj1, hj2, hat, hl0, hbound, hs, ho⟩ := consumeStringRealPart_ok h
  have hip1 : consumeIntPart d₁ off = .ok len ((j : Int) + 1) := by
    rw [consumeIntPart, consumeStringUntilByte, hj]
    simp only [show ¬ ((j : Int) < 0) by omega, if_false, Int.toNat_natCast, hat]
    congr 1
  have hip2 : consumeIntPart d₂ off = .ok len ((j : Int) + 1) :=
    consumeIntPart_congr hip1 hlen (fun i hi1 hi2 => hag i hi1 (by omega))
  rw [consumeStringRealPart, hip2]
  have htn : ((j : Int) + 1 + 1).toNat = j + 2 := by omega
  simp only [htn, DecodePHPString]
  rw [if_pos ⟨hl0, by rw [← hlen]; push_cast; push_cast at hbound; omega⟩]
  have hsl : (d₂.take (j + 2 + len.toNat)).drop (j + 2) =
      (d₁.take (j + 2 + len.toNat)).drop (j + 2) :=
    (slice_congr (fun i hi1 hi2 => hag i (by omega) (by omega))).symm
  rw [hsl, ← hs, ho]
  congr 1

lemma consumeString_congr {d₁ d₂ : Bytes} {off : Nat} {s : Bytes} {o : Int}
    (h : consumeString d₁ off = .ok s o) (hlen : d₁.length = d₂.length)
    (hag : ∀ i : Nat, off ≤ i → (i : Int) < o - 2 → d₁[i]? = d₂[i]?) :
    consumeString d₂ off = .ok s o := by
  obtain ⟨hlt, hch, hrp, hlo, hhi⟩ := consumeString_ok h
  have hct1 : checkType d₁ 's' off = true := checkType_iff.mpr ⟨hlt, hch⟩
  rw [consumeString, checkType_congr hlen (hag off le_rfl (by omega)), hct1]
  simp only [not_true, if_false]
  exact consumeStringRealPart_congr hrp hlen (fun i hi1 hi2 => hag i (by omega) hi2)

lemma consumeInt_congr {d₁ d₂ : Bytes} {off : Nat} {v o : Int}
    (h : consumeInt d₁ off = .ok v o) (hlen : d₁.length = d₂.length)
    (hag : ∀ i : Nat, off ≤ i → (i : Int) < o → d₁[i]? = d₂[i]?) :
    consumeInt d₂ off = .ok v o := by
  obtain ⟨hlt, hch, j, hj, hj1, hj2, ho, hat⟩ := consumeInt_ok h
  have hct1 : checkType d₁ 'i' off = true := checkType_iff.mpr ⟨hlt, hch⟩
  rw [consumeInt, checkType_congr hlen (hag off le_rfl (by omega)), hct1]
  simp only [not_true, if_false]
  have hfb2 : findByte d₂ ';' (off + 2) = (j : Int) :=
    findByte_congr hj hlen (fun i hi1 hi2 => hag i (by omega) (by omega))
  have hsl : (d₂.take j).drop (off + 2) = (d₁.take j).drop (off + 2) :=
    (slice_congr (fun i hi1 hi2 => hag i (by omega) (by omega))).symm
  rw [consumeStringUntilByte, hfb2]
  simp only [show ¬ ((j : Int) < 0) by omega, if_false, Int.toNat_natCast, hsl, hat]
  rw [ho]
  congr 1

lemma consumeFloat_congr {d₁ d₂ : Bytes} {off : Nat} {v : ℚ} {o : Int}
    (h : consumeFloat d₁ off = .ok v o) (hlen : d₁.length = d₂.length)
    (hag : ∀ i : Nat, off ≤ i → (i : Int) < o → d₁[i]? = d₂[i]?) :
    consumeFloat d₂ off = .ok v o := by
  obtain ⟨hlt, hch, j, hj, hj1, hj2, ho, hat⟩ := consumeFloat_ok h
  have hct1 : checkType d₁ 'd' off = true := checkType_iff.mpr ⟨hlt, hch⟩
  rw [consumeFloat, checkType_congr hlen (hag off le_rfl (by omega)), hct1]
  simp only [not_true, if_false]
  have hfb2 : findByte d₂ ';' (off + 2) = (j : Int) :=
    findByte_congr hj hlen (fun i hi1 hi2 => hag i (by omega) (by omega))
  have hsl : (d₂.take j).drop (off + 2) = (d₁.take j).drop (off + 2) :=
    (slice_congr (fun i hi1 hi2 => hag i (by omega) (by omega))).symm
  rw [consumeStringUntilByte, hfb2]
  simp only [show ¬ ((j : Int) < 0) by omega, if_false, Int.toNat_natCast, hsl, hat]
  rw [ho]
  congr 1

lemma consumeNil_congr {d₁ d₂ : Bytes} {off : Nat} {v : PValue} {o : Int}
    (h : consumeNil d₁ off = .ok v o) (hlen : d₁.length = d₂.length)
    (hag : ∀ i : Nat, off ≤ i → (i : Int) < o - 1 → d₁[i]? = d₂[i]?) :
    consumeNil d₂ off = .ok v o := by
  obtain ⟨hlt, hch, hv, ho⟩ := consumeNil_ok h
  have hct1 : checkType d₁ 'N' off = true := checkType_iff.mpr ⟨hlt, hch⟩
  rw [consumeNil, checkType_congr hlen (hag off le_rfl (by omega)), hct1]
  simp only [not_true, if_false]
  rw [hv, ho]

lemma consumeBool_congr {d₁ d₂ : Bytes} {off : Nat} {v : Bool} {o : Int}
    (h : consumeBool d₁ off = .ok v o) (hlen : d₁.length = d₂.length)
    (hag : ∀ i : Nat, off ≤ i → (i : Int) < o - 1 → d₁[i]? = d₂[i]?) :
    consumeBool d₂ off = .ok v o := by
  obtain ⟨hlt, hch, hlt2, hg2, hv, ho⟩ := consumeBool_ok h
  have hct1 : checkType d₁ 'b' off = true := checkType_iff.mpr ⟨hlt, hch⟩
  rw [consumeBool, checkType_congr hlen (hag off le_rfl (by omega)), hct1]
  simp only [not_true, if_false]
  have hg2' : d₂[off + 2]? = some (d₁.getD (off + 2) ' ') := by
    rw [← hag (off + 2) (by omega) (by omega)]
    exact hg2
  rw [List.get?_eq_getElem?, hg2']
  rw [hv, ho]

lemma consumeNext_congr {d₁ d₂ : Bytes} {off : Nat} {v : PValue} {o : Int}
    (h : consumeNext d₁ off = .ok v o) (hlen : d₁.length = d₂.length)
    (hag : ∀ i : Nat, off ≤ i → (i : Int) < o → d₁[i]? = d₂[i]?) :
    consumeNext d₂ off = .ok v o := by
  obtain ⟨hlt, hgt, hle⟩ := consumeNext_ok h
  rw [consumeNext] at h ⊢
  rw [if_neg (by omega)] at h
  rw [if_neg (by rw [← hlen]; omega)]
  have hgd : d₂.getD off ' ' = d₁.getD off ' ' := by
    rw [List.getD_eq_getElem?_getD, List.getD_eq_getElem?_getD,
      ← hag off le_rfl (by omega)]
  rw [hgd]
  split at h
  · obtain ⟨a, ha, hv⟩ := GoRes.map_eq_ok.mp h
    rw [consumeBool_congr ha hlen (fun i h1 h2 => hag i h1 (by omega)), hv]
    rfl
  · obtain ⟨a, ha, hv⟩ := GoRes.map_eq_ok.mp h
    rw [consumeFloat_congr ha hlen (fun i h1 h2 => hag i h1 h2), hv]
    rfl
  · obtain ⟨a, ha, hv⟩ := GoRes.map_eq_ok.mp h
    rw [consumeInt_congr ha hlen (fun i h1 h2 => hag i h1 h2), hv]
    rfl
  · obtain ⟨a, ha, hv⟩ := GoRes.map_eq_ok.mp h
    rw [consumeString_congr ha hlen (fun i h1 h2 => hag i h1 (by omega)), hv]
    rfl
  · exact consumeNil_congr h hlen (fun i h1 h2 => hag i h1 (by omega))
  · simp at h

lemma consumePairsGo_congr {co : Bytes → Nat → Slot → GoRes Slot} {d₁ d₂ : Bytes}
    (hlen : d₁.length = d₂.length)
    (hcomono : ∀ (off : Nat) (v s : Slot) (o : Int),
      co d₁ off v = .ok s o → (off : Int) < o)
    (hco : ∀ (off : Nat) (v s : Slot) (o : Int), co d₁ off v = .ok s o →
      (∀ i : Nat, off ≤ i → (i : Int) < o - 1 → d₁[i]? = d₂[i]?) →
      co d₂ off v = .ok s o) :
    ∀ {count offset : Nat} {v s : Slot} {o : Int},
      consumePairsGo co d₁ count offset v = .ok s o →
      (∀ i : Nat, offset ≤ i → (i : Int) < o → d₁[i]? = d₂[i]?) →
      consumePairsGo co d₂ count offset v = .ok s o := by
  intro count
  induction count with
  | zero =>
    intro offset v s o h hag
    rw [consumePairsGo] at h
    simp only [GoRes.ok.injEq] at h
    rw [consumePairsGo, h.1, h.2]
  | succ n ih =>
    intro offset v s o h hag
    simp only [consumePairsGo] at h ⊢
    split at h
    · simp at h
    · simp at h
    · rename_i key offset1 hks
      split at h
      · simp at h
      · rename_i inst
        split at h
        · simp at h
        · rename_i c hgc
          have hgc' : d₁[offset1.toNat]? = some c := by
            rw [← List.get?_eq_getElem?]
            exact hgc
          have hlt1 : offset1.toNat < d₁.length := by
            by_contra hcon
            rw [List.getElem?_eq_none (by omega)] at hgc'
            exact absurd hgc' (by simp)
          obtain ⟨_, _, _, hk1, _⟩ := consumeString_ok hks
          split at h
          · rename_i hO
            split at h
            · rename_i slot hf
              split at h
              · simp at h
              · simp at h
              · rename_i slot2 offset2 hc1
                have hm2 := hcomono _ _ _ _ hc1
                have hm3 := consumePairsGo_ok_le hcomono h
                have hks2 : consumeString d₂ offset = .ok key offset1 :=
                  consumeString_congr hks hlen
                    (fun i h1 h2 => hag i h1 (by omega))
                rw [hks2]
                dsimp only
                rw [List.get?_eq_getElem?, ← hag offset1.toNat (by omega) (by omega),
                  hgc']
                dsimp only
                rw [if_pos hO, hf]
                dsimp only
                rw [hco _ _ _ _ hc1 (fun i h1 h2 => hag i (by omega) (by omega))]
                dsimp only
                exact ih h (fun i h1 h2 => hag i (by omega) h2)
            · rename_i hf
              split at h
              · simp at h
              · simp at h
              · rename_i slot2 offset2 hc1
                have hm2 := hcomono _ _ _ _ hc1
                have hm3 := consumePairsGo_ok_le hcomono h
                have hks2 : consumeString d₂ offset = .ok key offset1 :=
                  consumeString_congr hks hlen
                    (fun i h1 h2 => hag i h1 (by omega))
                rw [hks2]
                dsimp only
                rw [List.get?_eq_getElem?, ← hag offset1.toNat (by omega) (by omega),
                  hgc']
                dsimp only
                rw [if_pos hO, hf]
                dsimp only
                rw [hco _ _ _ _ hc1 (fun i h1 h2 => hag i (by omega) (by omega))]
                dsimp only
                exact ih h (fun i h1 h2 => hag i (by omega) h2)
          · rename_i hO
            split at h
            · simp at h
            · simp at h
            · rename_i value offset2 hnx
              obtain ⟨_, hm2, _⟩ := consumeNext_ok hnx
              have hm3 : (offset2 : Int) ≤ o := by
                rcases hfs : lookupField inst (String.mk (upperCaseFirstLetter key)) with _ | fslot
                · rw [hfs] at h
                  dsimp only at h
                  have := consumePairsGo_ok_le hcomono h
                  omega
                · rw [hfs] at h
                  dsimp only at h
                  rcases hsf : setFieldSlot fslot value with _ | fslot2
                  · rw [hsf] at h
                    simp at h
                  · rw [hsf] at h
                    dsimp only at h
                    have := consumePairsGo_ok_le hcomono h
                    omega
              have hks2 : consumeString d₂ offset = .ok key offset1 :=
                consumeString_congr hks hlen
                  (fun i h1 h2 => hag i h1 (by omega))
              rw [hks2]
              dsimp only
              rw [List.get?_eq_getElem?, ← hag offset1.toNat (by omega) (by omega),
                hgc']
              dsimp only
              rw [if_neg hO]
              rw [consumeNext_congr hnx hlen (fun i h1 h2 => hag i (by omega) (by omega))]
              dsimp only
              split at h
              · exact ih h (fun i h1 h2 => hag i (by omega) h2)
              · split at h
                · simp at h
                · exact ih h (fun i h1 h2 => hag i (by omega) h2)

lemma consumeObjectF_congr {d₁ d₂ : Bytes} (hlen : d₁.length = d₂.length) :
    ∀ {fuel offset : Nat} {v s : Slot} {o : Int},
      consumeObjectF fuel d₁ offset v = .ok s o →
      (∀ i : Nat, offset ≤ i → (i : Int) < o - 1 → d₁[i]? = d₂[i]?) →
      consumeObjectF fuel d₂ offset v = .ok s o := by
  intro fuel
  induction fuel with
  | zero =>
    intro offset v s o h hag
    rw [consumeObjectF] at h
    simp at h
  | succ f ih =>
    intro offset v s o h hag
    rw [consumeObjectF] at h ⊢
    split at h
    · simp at h
    · rename_i hct
      rw [Decidable.not_not] at hct
      split at h
      · simp at h
      · simp at h
      · rename_i key offset1 hrp
        obtain ⟨j1, len1, _, hja, hjb, _, hl1, _, _, ho1⟩ := consumeStringRealPart_ok hrp
        split at h
        · simp at h
        · simp at h
        · rename_i length newOffset hip
          obtain ⟨j2, hj2, hj2a, hj2b, ho2, _⟩ := consumeIntPart_ok hip
          split at h
          · simp at h
          · simp at h
          · rename_i v2 offset3 hpx
            simp only [GoRes.ok.injEq] at h
            have hm3 := consumePairsGo_ok_le
              (fun off vv ss oo hh => consumeObjectF_ok_lt hh) hpx
            have hrp2 : consumeStringRealPart d₂ (offset + 2) = .ok key offset1 :=
              consumeStringRealPart_congr hrp hlen
                (fun i h1 h2 => hag i (by omega) (by omega))
            have hip2 : consumeIntPart d₂ offset1.toNat = .ok length newOffset :=
              consumeIntPart_congr hip hlen
                (fun i h1 h2 => hag i (by omega) (by omega))
            rw [if_neg (by rw [checkType_congr hlen (hag offset le_rfl (by omega)), hct]; simp),
              hrp2]
            dsimp only
            rw [hip2]
            dsimp only
            rw [consumePairsGo_congr hlen
              (fun off vv ss oo hh => consumeObjectF_ok_lt hh)
              (fun off vv ss oo hh hagg => ih hh hagg)
              hpx (fun i h1 h2 => hag i (by omega) (by omega))]
            dsimp only
            rw [h.1, h.2]

lemma consumeObject_congr {d₁ d₂ : Bytes} {offset : Nat} {v s : Slot} {o : Int}
    (hlen : d₁.length = d₂.length) (h : consumeObject d₁ offset v = .ok s o)
    (hag : ∀ i : Nat, offset ≤ i → (i : Int) < o - 1 → d₁[i]? = d₂[i]?) :
    consumeObject d₂ offset v = .ok s o := by
  rw [consumeObject, ← hlen]
  exact consumeObjectF_congr hlen h hag

/-- Two buffers of the same length agree everywhere (except two
positions) as soon as they agree on all in-range positions: out of
range both sides are `none`. -/
lemma agree_except_of_bounded {d₁ d₂ : Bytes} (hlen : d₁.length = d₂.length)
    (p : Nat) (q : Int)
    (hb : ∀ i : Nat, i < d₁.length → i ≠ p → (i : Int) ≠ q → d₁[i]? = d₂[i]?) :
    ∀ i : Nat, i ≠ p → (i : Int) ≠ q → d₁[i]? = d₂[i]? := by
  intro i h1 h2
  by_cases hi : i < d₁.length
  · exact hb i hi h1 h2
  · rw [List.getElem?_eq_none (by omega), List.getElem?_eq_none (by omega)]

/-!  ## The claims -/

/-- **C1**: decoding
`O:6:"Person":2:{s:4:"Name";s:3:"Bob";s:3:"Age";i:30;}` at offset 0
into a record with a text field `Name` and an integer field `Age` sets
`Name = "Bob"` and `Age = 30`, returns no error, and returns an offset
equal to the buffer length (53). -/
theorem c1_person_decode :
    consumeObject personWire 0 personRecord =
      .ok (.obj [("Name", .prim .stringK (some (.s "Bob".toList))),
        ("Age", .prim .intK (some (.i 30)))]) (personWire.length : Int) ∧
    personWire.length = 53 :=
  ⟨rfl, rfl⟩

/-- **C2**: a run of `consumeObject` that succeeds into any destination
also succeeds, with the same final offset, into the zero-field
destination — where every key is unmatched, each pair is consumed and
discarded (nested objects via the zero-field discard sink), and no
error arises.  Unmatched keys therefore never change the final offset
or cause failure. -/
theorem c2_unmatched_key_skipped :
    ∀ (data : Bytes) (offset : Nat) (dest s : Slot) (o : Int),
      consumeObject data offset dest = .ok s o →
      consumeObject data offset (Slot.obj []) = .ok (Slot.obj []) o :=
  fun _ _ _ _ _ h => consumeObjectF_discard h

theorem c2_unmatched_key_skipped_witness :
    consumeObject personWire 0 (Slot.obj []) = .ok (Slot.obj []) 53 :=
  c2_unmatched_key_skipped personWire 0 personRecord
    (.obj [("Name", .prim .stringK (some (.s "Bob".toList))),
      ("Age", .prim .intK (some (.i 30)))]) 53 (by rfl)

/-- **C3 counterexample**: `consumeBool` on the truncated literal
`"b:1"` (tag present, terminator `;` missing before the buffer end)
returns a success whose offset 4 exceeds the buffer length 3 — it
neither fails nor stays inside the buffer, refuting the claim for the
fixed-width consumers. -/
theorem c3_counterexample :
    consumeBool boolTrunc 0 = .ok true 4 ∧ boolTrunc.length = 3 :=
  ⟨rfl, rfl⟩

/-- **C3 amended**: only the terminator-scanning numeric consumers
detect truncation: `consumeInt` and `consumeFloat` fail with a parse
error whenever no `;` follows the literal, and their successful
offsets never exceed the buffer length.  (`consumeNil`, `consumeBool`
and `consumeString` never read the trailing terminator bytes and can
succeed with an offset past the end, as the counterexample shows.) -/
theorem c3_amended :
    (∀ (data : Bytes) (offset : Nat), findByte data ';' (offset + 2) = -1 →
      ∃ m, consumeInt data offset = .err (-1) m) ∧
    (∀ (data : Bytes) (offset : Nat), findByte data ';' (offset + 2) = -1 →
      ∃ m, consumeFloat data offset = .err (-1) m) ∧
    (∀ (data : Bytes) (offset : Nat) (v o : Int),
      consumeInt data offset = .ok v o → o ≤ data.length) ∧
    (∀ (data : Bytes) (offset : Nat) (v : ℚ) (o : Int),
      consumeFloat data offset = .ok v o → o ≤ data.length) := by
  refine ⟨fun data offset h => consumeInt_noTerminator h,
    fun data offset h => consumeFloat_noTerminator h, ?_, ?_⟩
  · intro data offset v o h
    obtain ⟨_, _, j, _, _, hj2, ho, _⟩ := consumeInt_ok h
    omega
  · intro data offset v o h
    obtain ⟨_, _, j, _, _, hj2, ho, _⟩ := consumeFloat_ok h
    omega

theorem c3_amended_witness :
    (∃ m, consumeInt "i:42".toList 0 = .err (-1) m) ∧
    (∃ m, consumeFloat "d:3.5".toList 0 = .err (-1) m) ∧
    (5 : Int) ≤ ("i:42;".toList : Bytes).length ∧
    (6 : Int) ≤ ("d:3.5;".toList : Bytes).length :=
  ⟨c3_amended.1 "i:42".toList 0 (by rfl),
   c3_amended.2.1 "d:3.5".toList 0 (by rfl),
   c3_amended.2.2.1 "i:42;".toList 0 42 5 (by rfl),
   c3_amended.2.2.2 "d:3.5;".toList 0 (mkRat 35 10) 6 (by rfl)⟩

/-- **C4 counterexample**: decoding a text value into an integer-typed
matched field does not return a `FieldTypeMismatch` (or any) error
value: `setField` calls `reflect.Value.Int` on a string value, which
panics, so the whole decode aborts with a runtime panic — there is no
error return at all. -/
theorem c4_counterexample :
    consumeObject mismatchWire 0 mismatchRecord = .panic :=
  rfl

/-- **C4 amended**: when the decoded scalar's kind is not assignable or
coercible to the matched field's kind, the decode aborts with a
runtime panic (modelled as `none` from `setField` and the `panic`
result of `consumeObject`), rather than succeeding or returning an
error value — the code has no `FieldTypeMismatch` error. -/
theorem c4_amended :
    (∀ t : List Char, setField ScalarKind.intK (PValue.s t) = none) ∧
    (∀ q : ℚ, setField ScalarKind.intK (PValue.f q) = none) ∧
    (∀ n : Int, setField ScalarKind.stringK (PValue.i n) = none) ∧
    consumeObject mismatchWire 0 mismatchRecord = .panic :=
  ⟨fun _ => rfl, fun _ => rfl, fun _ => rfl, rfl⟩

/-- **C6**: valid scalar literals decode to the corresponding logical
value and exact offset: `i:42;` ↦ 42 at offset 5, `d:3.5;` ↦ 3.5 at
offset 6, `b:1;` ↦ true at offset 4, `N;` ↦ null at offset 2, and
`s:5:"hello";` ↦ the 5-character text `hello` with the offset one past
the trailing `;` (12, the buffer length). -/
theorem c6_scalar_literals :
    consumeInt "i:42;".toList 0 = .ok 42 5 ∧
    consumeFloat "d:3.5;".toList 0 = .ok ((7 : ℚ) / 2) 6 ∧
    consumeBool "b:1;".toList 0 = .ok true 4 ∧
    consumeNil "N;".toList 0 = .ok .null 2 ∧
    consumeString "s:5:\"hello\";".toList 0 = .ok "hello".toList 12 ∧
    ("s:5:\"hello\";".toList : Bytes).length = 12 ∧
    "hello".toList.length = 5 := by
  refine ⟨rfl, ?_, rfl, rfl, rfl, rfl, rfl⟩
  have h : consumeFloat "d:3.5;".toList 0 = .ok (mkRat 35 10) 6 := rfl
  rw [h]
  norm_num [Rat.mkRat_eq_div]

/-- **C9**: `consumeStringRealPart` is not total over its error
channel: when the count field parses but declares a length exceeding
the remaining bytes (`5:"abc`) or a negative length (`-1:"a";`, the
count parser accepts a leading sign), the slice
`s[offset : offset+length]` is out of range and the operation neither
succeeds nor returns its error value — the panic branch is reachable. -/
theorem c9_slice_out_of_range :
    consumeIntPart overLenWire 0 = .ok 5 2 ∧
    consumeStringRealPart overLenWire 0 = .panic ∧
    consumeIntPart negLenWire 0 = .ok (-1) 3 ∧
    consumeStringRealPart negLenWire 0 = .panic :=
  ⟨rfl, rfl, rfl, rfl⟩

/-- **C5**: `consumeNext` fails with the corrupt-stream error when the
offset is at or past the buffer end; otherwise, when the tag byte is
not one of `N b i d s`, it fails with the unsupported-tag error whose
message carries the remaining buffer tail starting at the tag;
otherwise it returns exactly the result of the consumer for that tag
(wrapped into `interface\x7b\x7d`). -/
theorem c5_consumeNext_dispatch :
    ∀ (data : Bytes) (offset : Nat),
      (data.length ≤ offset → consumeNext data offset = .err (-1) "corrupt") ∧
      (offset < data.length →
        (data.getD offset ' ' ∉ (['N', 'b', 'i', 'd', 's'] : List Char) →
          consumeNext data offset =
            .err (-1) ("can not consume type: " ++ String.mk (data.drop offset))) ∧
        (data.getD offset ' ' = 'b' →
          consumeNext data offset = (consumeBool data offset).map PValue.b) ∧
        (data.getD offset ' ' = 'd' →
          consumeNext data offset = (consumeFloat data offset).map PValue.f) ∧
        (data.getD offset ' ' = 'i' →
          consumeNext data offset = (consumeInt data offset).map PValue.i) ∧
        (data.getD offset ' ' = 's' →
          consumeNext data offset = (consumeString data offset).map PValue.s) ∧
        (data.getD offset ' ' = 'N' →
          consumeNext data offset = consumeNil data offset)) := by
  intro data offset
  refine ⟨consumeNext_corrupt, fun hlt => ⟨?_, ?_, ?_, ?_, ?_, ?_⟩⟩
  · intro hc
    rw [consumeNext, if_neg (by omega)]
    split
    · rename_i heq; rw [heq] at hc; simp at hc
    · rename_i heq; rw [heq] at hc; simp at hc
    · rename_i heq; rw [heq] at hc; simp at hc
    · rename_i heq; rw [heq] at hc; simp at hc
    · rename_i heq; rw [heq] at hc; simp at hc
    · rfl
  · intro hc
    rw [consumeNext, if_neg (by omega), hc]
    rfl
  · intro hc
    rw [consumeNext, if_neg (by omega), hc]
    rfl
  · intro hc
    rw [consumeNext, if_neg (by omega), hc]
    rfl
  · intro hc
    rw [consumeNext, if_neg (by omega), hc]
    rfl
  · intro hc
    rw [consumeNext, if_neg (by omega), hc]
    rfl

theorem c5_consumeNext_dispatch_witness :
    consumeNext arrayWire 0 =
      .err (-1) ("can not consume type: " ++ String.mk (arrayWire.drop 0)) :=
  ((c5_consumeNext_dispatch arrayWire 0).2 (by decide)).1 (by decide)

/-- **C7 counterexample**: failure is not always signalled through the
returned error value: `consumeString` on the truncated `s:5:"abc`
reaches the out-of-range slice and aborts with a runtime panic, which
is exception-like control flow, not an error return. -/
theorem c7_counterexample :
    consumeString strTrunc 0 = .panic :=
  rfl

/-- **C7 amended**: whenever one of the consumers returns an error
value, the offset returned alongside it is the sentinel `-1`; however,
some failures (out-of-range slices or indexes, reflect kind
mismatches) abort by runtime panic instead of returning an error, as
the counterexample shows. -/
theorem c7_amended :
    (∀ (data : Bytes) (offset : Nat) (o : Int) (m : String),
      consumeInt data offset = .err o m → o = -1) ∧
    (∀ (data : Bytes) (offset : Nat) (o : Int) (m : String),
      consumeFloat data offset = .err o m → o = -1) ∧
    (∀ (data : Bytes) (offset : Nat) (o : Int) (m : String),
      consumeString data offset = .err o m → o = -1) ∧
    (∀ (data : Bytes) (offset : Nat) (o : Int) (m : String),
      consumeIntPart data offset = .err o m → o = -1) ∧
    (∀ (data : Bytes) (offset : Nat) (o : Int) (m : String),
      consumeNil data offset = .err o m → o = -1) ∧
    (∀ (data : Bytes) (offset : Nat) (o : Int) (m : String),
      consumeBool data offset = .err o m → o = -1) ∧
    (∀ (data : Bytes) (offset : Nat) (o : Int) (m : String),
      consumeNext data offset = .err o m → o = -1) ∧
    (∀ (data : Bytes) (offset : Nat) (v : Slot) (o : Int) (m : String),
      consumeObject data offset v = .err o m → o = -1) :=
  ⟨fun _ _ _ _ => consumeInt_err, fun _ _ _ _ => consumeFloat_err,
   fun _ _ _ _ => consumeString_err, fun _ _ _ _ => consumeIntPart_err,
   fun _ _ _ _ => consumeNil_err, fun _ _ _ _ => consumeBool_err,
   fun _ _ _ _ => consumeNext_err, fun _ _ _ _ _ => consumeObject_err⟩

theorem c7_amended_witness :
    (-1 : Int) = -1 ∧ (-1 : Int) = -1 :=
  ⟨c7_amended.1 "i".toList 0 (-1) "invalid syntax" (by rfl),
   c7_amended.2.2.2.2.2.2.2 "X".toList 0 (Slot.obj []) (-1) "not an object" (by rfl)⟩

/-- **C8**: offsets only move forward: every successful consumer run
returns an offset strictly greater than its starting offset. -/
theorem c8_offsets_forward :
    (∀ (data : Bytes) (offset : Nat) (v : PValue) (o : Int),
      consumeNil data offset = .ok v o → (offset : Int) < o) ∧
    (∀ (data : Bytes) (offset : Nat) (v : Bool) (o : Int),
      consumeBool data offset = .ok v o → (offset : Int) < o) ∧
    (∀ (data : Bytes) (offset : Nat) (v o : Int),
      consumeInt data offset = .ok v o → (offset : Int) < o) ∧
    (∀ (data : Bytes) (offset : Nat) (v : ℚ) (o : Int),
      consumeFloat data offset = .ok v o → (offset : Int) < o) ∧
    (∀ (data : Bytes) (offset : Nat) (s : Bytes) (o : Int),
      consumeString data offset = .ok s o → (offset : Int) < o) ∧
    (∀ (data : Bytes) (offset : Nat) (v s : Slot) (o : Int),
      consumeObject data offset v = .ok s o → (offset : Int) < o) ∧
    (∀ (data : Bytes) (offset : Nat) (v : PValue) (o : Int),
      consumeNext data offset = .ok v o → (offset : Int) < o) := by
  refine ⟨?_, ?_, ?_, ?_, ?_, ?_, ?_⟩
  · intro data offset v o h
    obtain ⟨_, _, _, ho⟩ := consumeNil_ok h
    omega
  · intro data offset v o h
    obtain ⟨_, _, _, _, _, ho⟩ := consumeBool_ok h
    omega
  · intro data offset v o h
    obtain ⟨_, _, j, _, hj1, _, ho, _⟩ := consumeInt_ok h
    omega
  · intro data offset v o h
    obtain ⟨_, _, j, _, hj1, _, ho, _⟩ := consumeFloat_ok h
    omega
  · intro data offset s o h
    obtain ⟨_, _, _, ho, _⟩ := consumeString_ok h
    omega
  · intro data offset v s o h
    exact consumeObject_ok_lt h
  · intro data offset v o h
    exact (consumeNext_ok h).2.1

theorem c8_offsets_forward_witness :
    (0 : Int) < 2 ∧ (0 : Int) < 53 :=
  ⟨c8_offsets_forward.1 "N;".toList 0 .null 2 (by rfl),
   c8_offsets_forward.2.2.2.2.2.1 personWire 0 personRecord
     (.obj [("Name", .prim .stringK (some (.s "Bob".toList))),
       ("Age", .prim .intK (some (.i 30)))]) 53 (by rfl)⟩

/-- **C10**: `consumeObject` never inspects the bytes at the positions
where the opening `\x7b` and the closing `\x7d` are expected — it
advances past them unconditionally.  Any buffer of the same length
agreeing with the original everywhere except possibly at those two
positions (the header end `p` and the final offset minus one) yields
the identical successful result: same destination writes, same final
offset, no error. -/
theorem c10_braces_uninspected :
    ∀ (d₁ d₂ : Bytes) (offset : Nat) (v s : Slot) (o : Int) (p : Nat),
      consumeObject d₁ offset v = .ok s o →
      objectHeaderEnd d₁ offset = some p →
      d₂.length = d₁.length →
      (∀ i : Nat, i ≠ p → (i : Int) ≠ o - 1 → d₂[i]? = d₁[i]?) →
      consumeObject d₂ offset v = .ok s o := by
  intro d₁ d₂ offset v s o p h hhead hlen2 hag2
  have hlen : d₁.length = d₂.length := hlen2.symm
  rw [consumeObject] at h
  rw [consumeObject, hlen2]
  rw [consumeObjectF] at h ⊢
  split at h
  · simp at h
  · rename_i hct
    rw [Decidable.not_not] at hct
    split at h
    · simp at h
    · simp at h
    · rename_i key offset1 hrp
      obtain ⟨j1, len1, _, hja, hjb, _, hl1, _, _, ho1⟩ := consumeStringRealPart_ok hrp
      split at h
      · simp at h
      · simp at h
      · rename_i length newOffset hip
        obtain ⟨j2, hj2, hj2a, hj2b, ho2, _⟩ := consumeIntPart_ok hip
        split at h
        · simp at h
        · simp at h
        · rename_i v2 offset3 hpx
          simp only [GoRes.ok.injEq] at h
          have hm3 := consumePairsGo_ok_le
            (fun off vv ss oo hh => consumeObjectF_ok_lt hh) hpx
          have hp : p = newOffset.toNat := by
            rw [objectHeaderEnd, if_neg (by simp [hct]), hrp] at hhead
            dsimp only at hhead
            rw [hip] at hhead
            dsimp only at hhead
            simpa using hhead.symm
          have hag : ∀ i : Nat, offset ≤ i → (i : Int) < o - 1 → i ≠ p →
              d₁[i]? = d₂[i]? :=
            fun i _ h2 h3 => (hag2 i h3 (by omega)).symm
          have hrp2 : consumeStringRealPart d₂ (offset + 2) = .ok key offset1 :=
            consumeStringRealPart_congr hrp hlen
              (fun i h1 h2 => hag i (by omega) (by omega) (by omega))
          have hip2 : consumeIntPart d₂ offset1.toNat = .ok length newOffset :=
            consumeIntPart_congr hip hlen
              (fun i h1 h2 => hag i (by omega) (by omega) (by omega))
          rw [if_neg (by
            rw [checkType_congr hlen (hag offset le_rfl (by omega) (by omega))]
            rw [hct]
            simp), hrp2]
          dsimp only
          rw [hip2]
          dsimp only
          rw [consumePairsGo_congr hlen
            (fun off vv ss oo hh => consumeObjectF_ok_lt hh)
            (fun off vv ss oo hh hagg => consumeObjectF_congr hlen hh hagg)
            hpx (fun i h1 h2 => hag i (by omega) (by omega) (by omega))]
          dsimp only
          rw [h.1, h.2]

theorem c10_braces_uninspected_witness :
    consumeObject ((personWire.set 15 'X').set 52 'Y') 0 personRecord =
      .ok (.obj [("Name", .prim .stringK (some (.s "Bob".toList))),
        ("Age", .prim .intK (some (.i 30)))]) 53 :=
  c10_braces_uninspected personWire ((personWire.set 15 'X').set 52 'Y') 0
    personRecord
    (.obj [("Name", .prim .stringK (some (.s "Bob".toList))),
      ("Age", .prim .intK (some (.i 30)))]) 53 15 (by rfl) (by rfl) (by rfl)
    (agree_except_of_bounded (by rfl) 15 (53 - 1) (by decide))

end PhpSerialize
